import Mathlib

/-!
# Verification of the breadpoets.org static site generator (`src/generate.js`)

Shallow embedding of `generateSite` from `src/generate.js`. The generator:
clears the output directory, compiles three Handlebars templates, reads the
data directory, parses every `.jsonld` file, sorts the records with
`(a, b) => a.headline.localeCompare(b.headline)`, renders one page per record
plus a listing page `index.html`, copies a fixed asset manifest, and copies
the contents of an `images/` directory.

Modelling choices:
* JSON values are modelled by `Value`; a parsed record is an association
  list of fields (JS objects with unique keys; lookup is first match).
* The external pieces — the three compiled Handlebars templates and the
  locale-sensitive `String.prototype.localeCompare` — are parameters of the
  build environment (`BuildEnv`).  `localeCompare` is modelled by its sign,
  an `Ordering`-valued comparison.
* `Array.prototype.sort` (ES2019+) is required to sort stably; for a
  consistent comparator every conforming engine produces the unique stable
  order, which the structural insertion sort `sortE` below computes.  The
  comparator itself can throw (`a.headline.localeCompare` dereferences
  `a.headline` without a guard), so `sortE` threads `Except`.  Which
  comparison call runs first when the comparator is inconsistent or throws
  is engine-specific; `sortE` fixes the insertion-sort call order.
* The run is recorded as a trace of filesystem/console events (`Ev`)
  together with the process exit code (`BuildResult`): `fs.emptyDir`,
  `layoutTemplate(ctx)` calls, `fs.writeFile`, `fs.ensureDir`, `fs.copy`,
  `console.log`/`console.warn` lines, and the `console.error` +
  `process.exit(1)` of the top-level catch.
-/

namespace BreadPoets

/-- A JSON value, as produced by `fs.readJson`. -/
inductive Value where
  | vstr (s : String)
  | vnum (n : Int)
  | vbool (b : Bool)
  | vnull
  | varr (xs : List Value)
  | vobj (fields : List (String × Value))

/-- A parsed record (a JS object): association list of fields, first match wins. -/
abbrev Record := List (String × Value)

/-- A template rendering context, also a JS object. -/
abbrev Ctx := List (String × Value)

/-- JS object property lookup. -/
def getKey {α : Type} (k : String) : List (String × α) → Option α
  | [] => none
  | (k', v) :: rest => if k' = k then some v else getKey k rest

/-- JS property assignment / object-literal override: `{...o, k: v}` keeps the
key at its position in `o` when present, else appends it. -/
def jsSet : Ctx → String → Value → Ctx
  | [], k, v => [(k, v)]
  | (k', v') :: rest, k, v =>
      if k' = k then (k, v) :: rest else (k', v') :: jsSet rest k v

/-- Element stringification inside `Array.prototype.toString` (one level; the
model elides nested arrays, which no data file and no claim exercises). -/
def jsArrElemString : Value → String
  | Value.vstr s => s
  | Value.vnum n => toString n
  | Value.vbool b => cond b "true" "false"
  | Value.vnull => ""
  | Value.vobj _ => "[object Object]"
  | Value.varr _ => ""

/-- JS `String(v)` coercion for a defined value. -/
def jsToString : Value → String
  | Value.vstr s => s
  | Value.vnum n => toString n
  | Value.vbool b => cond b "true" "false"
  | Value.vnull => "null"
  | Value.vobj _ => "[object Object]"
  | Value.varr xs => String.intercalate "," (xs.map jsArrElemString)

/-- JS string coercion of a possibly-undefined property (template literals and
`localeCompare`'s argument): `undefined` stringifies to `"undefined"`. -/
def jsArgString : Option Value → String
  | none => "undefined"
  | some v => jsToString v

/-- `String.prototype.endsWith`, on the character data. -/
def endsWithStr (s suff : String) : Bool := suff.data.isSuffixOf s.data

/-- `String.prototype.startsWith`, on the character data. -/
def startsWithStr (s p : String) : Bool := p.data.isPrefixOf s.data

/-- One entry of the data directory `src/data/recipes`: its name, and the
result of `fs.readJson` on it (`none` = malformed content, the parse throws).
For entries whose name does not end in `.jsonld` the content is never read. -/
structure DataFile where
  name : String
  content : Option Record

/-- Errors surfaced to the top-level catch. -/
inductive JsError where
  | parseError
  | typeError

/-- Observable events of one run, in program order. -/
inductive Ev where
  | clearDir
  | callLayout (ctx : Ctx)
  | writeFile (name : String) (content : String)
  | mkdir (name : String)
  | copyFile (dest : String) (content : String)
  | logLine (s : String)
  | warnLine (s : String)
  | errorLine

/-- The observable outcome of running `generateSite`: the event trace and the
process exit status. -/
structure BuildResult where
  trace : List Ev
  exitCode : Nat

/-- The build's inputs: the data directory listing, the three compiled
templates (external Handlebars functions), the locale comparison (sign of
`localeCompare`), the files present at the project root, and the `images/`
source directory listing (`none` when the directory does not exist).
Files carry their contents as strings (byte-for-byte identity). -/
structure BuildEnv where
  dataFiles : List DataFile
  layoutT : Ctx → String
  recipeT : Ctx → String
  indexT : Ctx → String
  cmp : String → String → Ordering
  rootFiles : List (String × String)
  imagesSrc : Option (List (String × String))

/-- Lines 30–38: enumerate the data directory, keep names ending in
`.jsonld`, parse each in order; the first malformed file throws. -/
def loadRecords : List DataFile → Except JsError (List Record)
  | [] => Except.ok []
  | f :: fs =>
      if endsWithStr f.name ".jsonld" then
        match f.content with
        | none => Except.error JsError.parseError
        | some r =>
            match loadRecords fs with
            | Except.error e => Except.error e
            | Except.ok rest => Except.ok (r :: rest)
      else loadRecords fs

/-- Line 41's comparator body `a.headline.localeCompare(b.headline)`:
throws a `TypeError` unless `a.headline` is a string; `b.headline` is
coerced to a string (so `undefined` compares as `"undefined"`). -/
def headlineLocaleCompare (cmp : String → String → Ordering) (a b : Record) :
    Except JsError Ordering :=
  match getKey "headline" a with
  | some (Value.vstr sa) => Except.ok (cmp sa (jsArgString (getKey "headline" b)))
  | _ => Except.error JsError.typeError

/-- Stable insertion into an already-sorted list, with a throwing comparator:
`x` is placed before the first element `y` with `c x y ≤ 0`. -/
def insertE (c : Record → Record → Except JsError Ordering) (x : Record) :
    List Record → Except JsError (List Record)
  | [] => Except.ok [x]
  | y :: ys =>
      match c x y with
      | Except.error e => Except.error e
      | Except.ok o =>
          if o = Ordering.gt then
            match insertE c x ys with
            | Except.error e => Except.error e
            | Except.ok rest => Except.ok (y :: rest)
          else Except.ok (x :: y :: ys)

/-- Line 41: `allRecipesData.sort(...)` — the stable sorted order required of
`Array.prototype.sort` (ES2019+), with comparator failures propagated.
The success-path result is engine-forced (the unique stable order for a
consistent comparator).  The failure path's comparator call order is a model
choice (tail-first insertion, earlier-enumerated record as first argument);
ECMA-262 leaves the real call sequence implementation-defined and engines
differ, so no theorem below asserts which multi-record inputs make `sortE`
fail — only the engine-independent facts that a sort-step failure aborts the
build, that a one-element array involves no comparison, and that an
all-string-headline collection cannot fail. -/
def sortE (c : Record → Record → Except JsError Ordering) :
    List Record → Except JsError (List Record)
  | [] => Except.ok []
  | x :: xs =>
      match sortE c xs with
      | Except.error e => Except.error e
      | Except.ok s => insertE c x s

/-- `true` iff the record's `headline` field exists and is a string. -/
def isStrHeadline (r : Record) : Bool :=
  match getKey "headline" r with
  | some (Value.vstr _) => true
  | _ => false

/-- The record's `headline` string (defaulting when absent or non-string). -/
def headlineStr (r : Record) : String :=
  match getKey "headline" r with
  | some (Value.vstr s) => s
  | _ => ""

/-- The non-strict order on records induced by the headline comparison:
`a` need not come after `b`. -/
def recLe (cmp : String → String → Ordering) (a b : Record) : Prop :=
  cmp (headlineStr a) (headlineStr b) ≠ Ordering.gt

instance (cmp : String → String → Ordering) : DecidableRel (recLe cmp) :=
  fun a b => by unfold recLe; infer_instance

/-- Line 60: the listing page's fixed title. -/
def indexPageTitle : String := "The Bread Poets' Society: recipes in verse"

/-- Lines 69–81: the fixed asset manifest. -/
def assetsToCopy : List String :=
  ["bps.css", "CNAME", "robots.txt", "favicon.ico", "bread1.gif",
   "img_4638_small.jpg", "lemony_chickpea.jpg", "pancakes-small.jpg",
   "smack-pie.jpg", "why.html", "colorgame.html"]

/-- The navigation value passed as `recipes`: the sorted record collection. -/
def recipesValue (sorted : List Record) : Value :=
  Value.varr (sorted.map Value.vobj)

/-- Lines 46–50: the shell context `{...recipeData, body, recipes}`. -/
def recipeCtx (recipeT : Ctx → String) (recipesVal : Value) (r : Record) : Ctx :=
  jsSet (jsSet r "body" (Value.vstr (recipeT r))) "recipes" recipesVal

/-- Lines 59–64: the shell context for the listing page. -/
def indexCtx (indexT : Ctx → String) (recipesVal : Value) : Ctx :=
  [("pageTitle", Value.vstr indexPageTitle),
   ("body", Value.vstr (indexT [])),
   ("recipes", recipesVal)]

/-- `List.flatMap`, pinned locally. -/
def catMap {α β : Type} (f : α → List β) : List α → List β
  | [] => []
  | x :: xs => f x ++ catMap f xs

/-- Lines 44–53: render one record's page and write `<slug>.html`
(the slug is coerced as in the template literal, so a missing slug
yields `undefined.html`). -/
def recipePageEvents (recipeT layoutT : Ctx → String) (recipesVal : Value)
    (r : Record) : List Ev :=
  let ctx := recipeCtx recipeT recipesVal r
  let slug := jsArgString (getKey "slug" r)
  [Ev.callLayout ctx,
   Ev.writeFile (slug ++ ".html") (layoutT ctx),
   Ev.logLine ("Generated: " ++ slug ++ ".html")]

/-- Lines 87–96: one manifest asset — copy and log when present at the root,
warn and continue when absent. -/
def assetEvents (rootFiles : List (String × String)) (a : String) : List Ev :=
  match getKey a rootFiles with
  | some content => [Ev.copyFile a content, Ev.logLine ("Copied: " ++ a)]
  | none => [Ev.warnLine ("Asset not found, skipped: " ++ a)]

/-- Lines 99–107: copy every entry of the images directory when it exists,
else warn. -/
def imagesEvents : Option (List (String × String)) → List Ev
  | some files =>
      catMap (fun f =>
        [Ev.copyFile ("images/" ++ f.1) f.2,
         Ev.logLine ("Copied image: images/" ++ f.1)]) files
  | none => [Ev.warnLine "Root images directory not found, skipped copying images from there."]

/-- The full event trace of a run whose load and sort steps succeeded, in
source order: clear output dir (line 14), per-record pages (44–53), the
listing page (55–66), `ensureDir` of `public/images` (85), the manifest
copies (87–96), the images copies (99–107), the completion line (110). -/
def successTrace (env : BuildEnv) (sorted : List Record) : List Ev :=
  let recipesVal := recipesValue sorted
  let ictx := indexCtx env.indexT recipesVal
  [Ev.clearDir]
    ++ catMap (recipePageEvents env.recipeT env.layoutT recipesVal) sorted
    ++ [Ev.callLayout ictx,
        Ev.writeFile "index.html" (env.layoutT ictx),
        Ev.logLine "Generated: index.html"]
    ++ [Ev.mkdir "images"]
    ++ catMap (assetEvents env.rootFiles) assetsToCopy
    ++ imagesEvents env.imagesSrc
    ++ [Ev.logLine "Static site generation complete!"]

/-- `generateSite` (lines 5–116): any error thrown by the load or sort steps
reaches the top-level catch after the output directory was cleared and before
any page is written; the catch logs the error and exits with status 1.
A run past the sort performs the whole success trace and exits 0. -/
def generateSite (env : BuildEnv) : BuildResult :=
  match loadRecords env.dataFiles with
  | Except.error _ => { trace := [Ev.clearDir, Ev.errorLine], exitCode := 1 }
  | Except.ok records =>
      match sortE (headlineLocaleCompare env.cmp) records with
      | Except.error _ => { trace := [Ev.clearDir, Ev.errorLine], exitCode := 1 }
      | Except.ok sorted => { trace := successTrace env sorted, exitCode := 0 }

/-- The pages written by the renderer (`fs.writeFile`), in order. -/
def pagesOf (t : List Ev) : List (String × String) :=
  t.filterMap fun e =>
    match e with
    | Ev.writeFile n c => some (n, c)
    | _ => none

/-- Every file present in the output directory at the end of the run
(written pages and copied files), with its content. -/
def outFilesOf (t : List Ev) : List (String × String) :=
  t.filterMap fun e =>
    match e with
    | Ev.writeFile n c => some (n, c)
    | Ev.copyFile n c => some (n, c)
    | _ => none

/-- The contexts passed to the shell (layout) template, in order. -/
def layoutCtxsOf (t : List Ev) : List Ctx :=
  t.filterMap fun e =>
    match e with
    | Ev.callLayout c => some c
    | _ => none

/-- The copies landing in the output's `images/` subdirectory. -/
def imageCopiesOf (t : List Ev) : List (String × String) :=
  t.filterMap fun e =>
    match e with
    | Ev.copyFile n c => if startsWithStr n "images/" then some (n, c) else none
    | _ => none

/-! ## Object lookup and override lemmas -/

theorem getKey_jsSet_self (o : Ctx) (k : String) (v : Value) :
    getKey k (jsSet o k v) = some v := by
  induction o with
  | nil => simp [jsSet, getKey]
  | cons hd tl ih =>
      obtain ⟨k', v'⟩ := hd
      by_cases h : k' = k
      · simp [jsSet, h, getKey]
      · simp [jsSet, h, getKey, ih]

theorem getKey_jsSet_other (o : Ctx) (k k' : String) (v : Value) (h : k' ≠ k) :
    getKey k' (jsSet o k v) = getKey k' o := by
  have hne : ¬ k = k' := fun hk => h hk.symm
  induction o with
  | nil => simp [jsSet, getKey, hne]
  | cons hd tl ih =>
      obtain ⟨k₀, v₀⟩ := hd
      by_cases h₀ : k₀ = k
      · subst h₀
        simp [jsSet, getKey, hne]
      · simp [jsSet, h₀, getKey, ih]

/-! ## Record-loading lemmas -/

/-- The record selected from one directory entry: its parse result when the
name has the recognized extension, nothing otherwise. -/
def pickRecord (f : DataFile) : Option Record :=
  if endsWithStr f.name ".jsonld" then f.content else none

theorem loadRecords_eq_ok (files : List DataFile)
    (h : ∀ f ∈ files, endsWithStr f.name ".jsonld" = true → f.content.isSome = true) :
    loadRecords files = Except.ok (files.filterMap pickRecord) := by
  induction files with
  | nil => simp [loadRecords]
  | cons f fs ih =>
      have hfs : ∀ g ∈ fs, endsWithStr g.name ".jsonld" = true → g.content.isSome = true :=
        fun g hg => h g (List.mem_cons_of_mem f hg)
      by_cases he : endsWithStr f.name ".jsonld" = true
      · have hc : f.content.isSome = true := h f (List.mem_cons_self f fs) he
        obtain ⟨r, hr⟩ := Option.isSome_iff_exists.mp hc
        simp [loadRecords, he, hr, ih hfs, List.filterMap_cons, pickRecord]
      · simp [loadRecords, he, ih hfs, List.filterMap_cons, pickRecord]

theorem loadRecords_error (files : List DataFile)
    (h : ∃ f ∈ files, endsWithStr f.name ".jsonld" = true ∧ f.content = none) :
    loadRecords files = Except.error JsError.parseError := by
  induction files with
  | nil => simp at h
  | cons f fs ih =>
      obtain ⟨g, hg, hge, hgc⟩ := h
      rcases List.mem_cons.mp hg with hgf | hgfs
      · subst hgf
        simp [loadRecords, hge, hgc]
      · by_cases he : endsWithStr f.name ".jsonld" = true
        · cases hc : f.content with
          | none => simp [loadRecords, he, hc]
          | some r => simp [loadRecords, he, hc, ih ⟨g, hgfs, hge, hgc⟩]
        · simp [loadRecords, he, ih ⟨g, hgfs, hge, hgc⟩]

theorem length_filterMap_pickRecord (files : List DataFile)
    (h : ∀ f ∈ files, endsWithStr f.name ".jsonld" = true → f.content.isSome = true) :
    (files.filterMap pickRecord).length
      = (files.filter (fun f => endsWithStr f.name ".jsonld")).length := by
  induction files with
  | nil => rfl
  | cons f fs ih =>
      have hfs : ∀ g ∈ fs, endsWithStr g.name ".jsonld" = true → g.content.isSome = true :=
        fun g hg => h g (List.mem_cons_of_mem f hg)
      by_cases he : endsWithStr f.name ".jsonld" = true
      · obtain ⟨r, hr⟩ := Option.isSome_iff_exists.mp (h f (List.mem_cons_self f fs) he)
        simp [List.filterMap_cons, List.filter_cons, pickRecord, he, hr, ih hfs]
      · simp [List.filterMap_cons, List.filter_cons, pickRecord, he, ih hfs]

/-! ## Comparator and sort lemmas -/

theorem getKey_headline_of_isStr (r : Record) (h : isStrHeadline r = true) :
    getKey "headline" r = some (Value.vstr (headlineStr r)) := by
  unfold isStrHeadline at h
  unfold headlineStr
  cases hg : getKey "headline" r with
  | none => simp [hg] at h
  | some v => cases v <;> simp [hg] at h ⊢

theorem headlineLocaleCompare_ok (cmp : String → String → Ordering) (a b : Record)
    (ha : isStrHeadline a = true) (hb : isStrHeadline b = true) :
    headlineLocaleCompare cmp a b
      = Except.ok (cmp (headlineStr a) (headlineStr b)) := by
  unfold headlineLocaleCompare
  rw [getKey_headline_of_isStr a ha, getKey_headline_of_isStr b hb]
  rfl

theorem headlineLocaleCompare_bad (cmp : String → String → Ordering) (a b : Record)
    (ha : isStrHeadline a = false) :
    headlineLocaleCompare cmp a b = Except.error JsError.typeError := by
  unfold isStrHeadline at ha
  unfold headlineLocaleCompare
  cases hg : getKey "headline" a with
  | none => simp [hg]
  | some v => cases v <;> simp [hg] at ha ⊢

theorem insertE_ok (cmp : String → String → Ordering) (x : Record) (l : List Record)
    (hx : isStrHeadline x = true) (hl : ∀ y ∈ l, isStrHeadline y = true) :
    insertE (headlineLocaleCompare cmp) x l
      = Except.ok (List.orderedInsert (recLe cmp) x l) := by
  induction l with
  | nil => rfl
  | cons y ys ih =>
      have hy : isStrHeadline y = true := hl y (List.mem_cons_self y ys)
      have hys : ∀ z ∈ ys, isStrHeadline z = true :=
        fun z hz => hl z (List.mem_cons_of_mem y hz)
      unfold insertE
      rw [headlineLocaleCompare_ok cmp x y hx hy]
      by_cases hgt : cmp (headlineStr x) (headlineStr y) = Ordering.gt
      · simp only [hgt, if_pos rfl, ih hys]
        simp [List.orderedInsert, recLe, hgt]
      · simp only [if_neg hgt]
        simp [List.orderedInsert, recLe, hgt]

theorem sortE_ok (cmp : String → String → Ordering) (l : List Record)
    (hl : ∀ r ∈ l, isStrHeadline r = true) :
    sortE (headlineLocaleCompare cmp) l
      = Except.ok (List.insertionSort (recLe cmp) l) := by
  induction l with
  | nil => rfl
  | cons x xs ih =>
      have hx : isStrHeadline x = true := hl x (List.mem_cons_self x xs)
      have hxs : ∀ r ∈ xs, isStrHeadline r = true :=
        fun r hr => hl r (List.mem_cons_of_mem x hr)
      have hmem : ∀ y ∈ List.insertionSort (recLe cmp) xs, isStrHeadline y = true :=
        fun y hy => hxs y ((List.mem_insertionSort _).mp hy)
      simp [sortE, ih hxs, insertE_ok cmp x _ hx hmem, List.insertionSort]

theorem insertionSort_filter_eq {le : Record → Record → Prop} [DecidableRel le]
    (l : List Record) (p : Record → Bool)
    (hp : ∀ a ∈ l, ∀ b ∈ l, p a = true → p b = true → le a b) :
    (List.insertionSort le l).filter p = l.filter p := by
  have hpw : (l.filter p).Pairwise le := by
    apply List.pairwise_of_forall_mem_list
    intro a ha b hb
    exact hp a (List.mem_filter.mp ha).1 b (List.mem_filter.mp hb).1
      (List.mem_filter.mp ha).2 (List.mem_filter.mp hb).2
  have hsub : List.Sublist (l.filter p) (List.insertionSort le l) :=
    List.sublist_insertionSort hpw (List.filter_sublist l)
  have hsub2 := hsub.filter p
  rw [List.filter_filter] at hsub2
  have hsub3 : List.Sublist (l.filter p) ((List.insertionSort le l).filter p) := by
    have hpp : (fun a => p a && p a) = p := by funext a; cases p a <;> rfl
    rwa [hpp] at hsub2
  have hperm : ((List.insertionSort le l).filter p).Perm (l.filter p) :=
    (List.perm_insertionSort le l).filter p
  exact (hsub3.eq_of_length hperm.length_eq.symm).symm

theorem eq_of_perm_of_sorted_local {le : Record → Record → Prop} :
    ∀ {l₁ l₂ : List Record}, l₁.Perm l₂ → l₁.Pairwise le → l₂.Pairwise le →
      (∀ a ∈ l₁, ∀ b ∈ l₁, le a b → le b a → a = b) → l₁ = l₂ := by
  intro l₁
  induction l₁ with
  | nil =>
      intro l₂ hp _ _ _
      exact (hp.symm.eq_nil).symm
  | cons a t ih =>
      intro l₂ hp hs₁ hs₂ hanti
      cases l₂ with
      | nil => exact absurd (hp.eq_nil) (by simp)
      | cons b t₂ =>
          by_cases hab : a = b
          · subst hab
            have ht : t.Perm t₂ := hp.cons_inv
            have harest : ∀ x ∈ t, ∀ y ∈ t, le x y → le y x → x = y :=
              fun x hx y hy =>
                hanti x (List.mem_cons_of_mem a hx) y (List.mem_cons_of_mem a hy)
            rw [ih ht hs₁.of_cons hs₂.of_cons harest]
          · have ha2 : a ∈ b :: t₂ := hp.mem_iff.mp (List.mem_cons_self a t)
            have hb1 : b ∈ a :: t := hp.mem_iff.mpr (List.mem_cons_self b t₂)
            have ha2' : a ∈ t₂ := by
              rcases List.mem_cons.mp ha2 with h | h
              · exact absurd h hab
              · exact h
            have hb1' : b ∈ t := by
              rcases List.mem_cons.mp hb1 with h | h
              · exact absurd h.symm hab
              · exact h
            have hle_ab : le a b := List.rel_of_pairwise_cons hs₁ hb1'
            have hle_ba : le b a := List.rel_of_pairwise_cons hs₂ ha2'
            exact absurd
              (hanti a (List.mem_cons_self a t) b (List.mem_cons.mpr (Or.inr hb1'))
                hle_ab hle_ba) hab

/-! ## Trace bookkeeping lemmas -/

theorem isPrefixOf_append_self {α : Type} [BEq α] [LawfulBEq α] (l m : List α) :
    l.isPrefixOf (l ++ m) = true := by
  induction l with
  | nil => simp [List.isPrefixOf]
  | cons a as ih => simp [List.isPrefixOf, ih]

theorem startsWithStr_append (p n : String) : startsWithStr (p ++ n) p = true := by
  unfold startsWithStr
  rw [String.data_append]
  exact isPrefixOf_append_self p.data n.data

theorem pagesOf_append (t₁ t₂ : List Ev) :
    pagesOf (t₁ ++ t₂) = pagesOf t₁ ++ pagesOf t₂ :=
  List.filterMap_append t₁ t₂ _

theorem outFilesOf_append (t₁ t₂ : List Ev) :
    outFilesOf (t₁ ++ t₂) = outFilesOf t₁ ++ outFilesOf t₂ :=
  List.filterMap_append t₁ t₂ _

theorem layoutCtxsOf_append (t₁ t₂ : List Ev) :
    layoutCtxsOf (t₁ ++ t₂) = layoutCtxsOf t₁ ++ layoutCtxsOf t₂ :=
  List.filterMap_append t₁ t₂ _

theorem imageCopiesOf_append (t₁ t₂ : List Ev) :
    imageCopiesOf (t₁ ++ t₂) = imageCopiesOf t₁ ++ imageCopiesOf t₂ :=
  List.filterMap_append t₁ t₂ _

/-- The name and content of the page written for one record. -/
def pageFor (recipeT layoutT : Ctx → String) (recipesVal : Value) (r : Record) :
    String × String :=
  (jsArgString (getKey "slug" r) ++ ".html", layoutT (recipeCtx recipeT recipesVal r))

theorem pagesOf_recipeEvents (recipeT layoutT : Ctx → String) (rv : Value)
    (l : List Record) :
    pagesOf (catMap (recipePageEvents recipeT layoutT rv) l)
      = l.map (pageFor recipeT layoutT rv) := by
  induction l with
  | nil => rfl
  | cons r rs ih =>
      simp only [catMap, pagesOf, List.filterMap_append] at *
      simp [recipePageEvents, List.filterMap_cons, ih, pageFor]

theorem layoutCtxsOf_recipeEvents (recipeT layoutT : Ctx → String) (rv : Value)
    (l : List Record) :
    layoutCtxsOf (catMap (recipePageEvents recipeT layoutT rv) l)
      = l.map (recipeCtx recipeT rv) := by
  induction l with
  | nil => rfl
  | cons r rs ih =>
      simp only [catMap, layoutCtxsOf, List.filterMap_append] at *
      simp [recipePageEvents, List.filterMap_cons, ih]

theorem imageCopiesOf_recipeEvents (recipeT layoutT : Ctx → String) (rv : Value)
    (l : List Record) :
    imageCopiesOf (catMap (recipePageEvents recipeT layoutT rv) l) = [] := by
  induction l with
  | nil => rfl
  | cons r rs ih =>
      simp only [catMap, imageCopiesOf, List.filterMap_append] at *
      simp [recipePageEvents, List.filterMap_cons, ih]

theorem pagesOf_assetEvents (rootFiles : List (String × String)) (L : List String) :
    pagesOf (catMap (assetEvents rootFiles) L) = [] := by
  induction L with
  | nil => rfl
  | cons a as ih =>
      simp only [catMap, pagesOf, List.filterMap_append] at *
      cases hg : getKey a rootFiles with
      | none => simp [assetEvents, hg, List.filterMap_cons, ih]
      | some c => simp [assetEvents, hg, List.filterMap_cons, ih]

theorem layoutCtxsOf_assetEvents (rootFiles : List (String × String)) (L : List String) :
    layoutCtxsOf (catMap (assetEvents rootFiles) L) = [] := by
  induction L with
  | nil => rfl
  | cons a as ih =>
      simp only [catMap, layoutCtxsOf, List.filterMap_append] at *
      cases hg : getKey a rootFiles with
      | none => simp [assetEvents, hg, List.filterMap_cons, ih]
      | some c => simp [assetEvents, hg, List.filterMap_cons, ih]

theorem outFilesOf_assetEvents (rootFiles : List (String × String)) (L : List String) :
    outFilesOf (catMap (assetEvents rootFiles) L)
      = L.filterMap (fun a => (getKey a rootFiles).map (fun c => (a, c))) := by
  induction L with
  | nil => rfl
  | cons a as ih =>
      simp only [catMap, outFilesOf, List.filterMap_append] at *
      cases hg : getKey a rootFiles with
      | none => simp [assetEvents, hg, List.filterMap_cons, ih]
      | some c => simp [assetEvents, hg, List.filterMap_cons, ih]

theorem imageCopiesOf_assetEvents (rootFiles : List (String × String)) (L : List String)
    (hL : ∀ a ∈ L, startsWithStr a "images/" = false) :
    imageCopiesOf (catMap (assetEvents rootFiles) L) = [] := by
  induction L with
  | nil => rfl
  | cons a as ih =>
      have ha : startsWithStr a "images/" = false := hL a (List.mem_cons_self a as)
      have has : ∀ b ∈ as, startsWithStr b "images/" = false :=
        fun b hb => hL b (List.mem_cons_of_mem a hb)
      simp only [catMap, imageCopiesOf, List.filterMap_append] at *
      cases hg : getKey a rootFiles with
      | none => simp [assetEvents, hg, List.filterMap_cons, ih has]
      | some c => simp [assetEvents, hg, List.filterMap_cons, ih has, ha]

theorem pagesOf_imagesEvents (src : Option (List (String × String))) :
    pagesOf (imagesEvents src) = [] := by
  cases src with
  | none => rfl
  | some files =>
      induction files with
      | nil => rfl
      | cons f fs ih =>
          simp only [imagesEvents, catMap, pagesOf, List.filterMap_append] at *
          simp [List.filterMap_cons, ih]

theorem layoutCtxsOf_imagesEvents (src : Option (List (String × String))) :
    layoutCtxsOf (imagesEvents src) = [] := by
  cases src with
  | none => rfl
  | some files =>
      induction files with
      | nil => rfl
      | cons f fs ih =>
          simp only [imagesEvents, catMap, layoutCtxsOf, List.filterMap_append] at *
          simp [List.filterMap_cons, ih]

theorem outFilesOf_imagesEvents (files : List (String × String)) :
    outFilesOf (imagesEvents (some files))
      = files.map (fun f => ("images/" ++ f.1, f.2)) := by
  induction files with
  | nil => rfl
  | cons f fs ih =>
      simp only [imagesEvents, catMap, outFilesOf, List.filterMap_append] at *
      simp [List.filterMap_cons, ih]

theorem imageCopiesOf_imagesEvents (files : List (String × String)) :
    imageCopiesOf (imagesEvents (some files))
      = files.map (fun f => ("images/" ++ f.1, f.2)) := by
  induction files with
  | nil => rfl
  | cons f fs ih =>
      simp only [imagesEvents, catMap, imageCopiesOf, List.filterMap_append] at *
      simp [List.filterMap_cons, ih, startsWithStr_append]

theorem assetsToCopy_not_images : ∀ a ∈ assetsToCopy, startsWithStr a "images/" = false := by
  decide

theorem outFilesOf_recipeEvents (recipeT layoutT : Ctx → String) (rv : Value)
    (l : List Record) :
    outFilesOf (catMap (recipePageEvents recipeT layoutT rv) l)
      = l.map (pageFor recipeT layoutT rv) := by
  induction l with
  | nil => rfl
  | cons r rs ih =>
      simp only [catMap, outFilesOf, List.filterMap_append] at *
      simp [recipePageEvents, List.filterMap_cons, ih, pageFor]

/-- The manifest assets found at the source root, with their contents. -/
def copiedAssets (rootFiles : List (String × String)) : List (String × String) :=
  assetsToCopy.filterMap (fun a => (getKey a rootFiles).map (fun c => (a, c)))

/-- The files copied into the output's `images/` subdirectory. -/
def copiedImages : Option (List (String × String)) → List (String × String)
  | some files => files.map (fun f => ("images/" ++ f.1, f.2))
  | none => []

/-! ## Run-level lemmas -/

theorem generateSite_ok (env : BuildEnv) (records sorted : List Record)
    (hload : loadRecords env.dataFiles = Except.ok records)
    (hsort : sortE (headlineLocaleCompare env.cmp) records = Except.ok sorted) :
    generateSite env = { trace := successTrace env sorted, exitCode := 0 } := by
  simp [generateSite, hload, hsort]

theorem generateSite_loadError (env : BuildEnv) (e : JsError)
    (hload : loadRecords env.dataFiles = Except.error e) :
    generateSite env = { trace := [Ev.clearDir, Ev.errorLine], exitCode := 1 } := by
  simp [generateSite, hload]

theorem generateSite_sortError (env : BuildEnv) (records : List Record) (e : JsError)
    (hload : loadRecords env.dataFiles = Except.ok records)
    (hsort : sortE (headlineLocaleCompare env.cmp) records = Except.error e) :
    generateSite env = { trace := [Ev.clearDir, Ev.errorLine], exitCode := 1 } := by
  simp [generateSite, hload, hsort]

theorem pagesOf_successTrace (env : BuildEnv) (sorted : List Record) :
    pagesOf (successTrace env sorted)
      = sorted.map (pageFor env.recipeT env.layoutT (recipesValue sorted))
          ++ [("index.html", env.layoutT (indexCtx env.indexT (recipesValue sorted)))] := by
  unfold successTrace
  simp only [pagesOf_append, pagesOf_recipeEvents, pagesOf_assetEvents, pagesOf_imagesEvents]
  simp [pagesOf, List.filterMap_cons]

theorem layoutCtxsOf_successTrace (env : BuildEnv) (sorted : List Record) :
    layoutCtxsOf (successTrace env sorted)
      = sorted.map (recipeCtx env.recipeT (recipesValue sorted))
          ++ [indexCtx env.indexT (recipesValue sorted)] := by
  unfold successTrace
  simp only [layoutCtxsOf_append, layoutCtxsOf_recipeEvents, layoutCtxsOf_assetEvents,
    layoutCtxsOf_imagesEvents]
  simp [layoutCtxsOf, List.filterMap_cons]

theorem imageCopiesOf_successTrace (env : BuildEnv) (sorted : List Record) :
    imageCopiesOf (successTrace env sorted)
      = (match env.imagesSrc with
         | some files => files.map (fun f => ("images/" ++ f.1, f.2))
         | none => []) := by
  cases hsrc : env.imagesSrc with
  | none =>
      unfold successTrace
      rw [hsrc]
      simp only [imageCopiesOf_append, imageCopiesOf_recipeEvents,
        imageCopiesOf_assetEvents env.rootFiles assetsToCopy assetsToCopy_not_images]
      simp [imageCopiesOf, List.filterMap_cons, imagesEvents]
  | some files =>
      unfold successTrace
      rw [hsrc]
      simp only [imageCopiesOf_append, imageCopiesOf_recipeEvents,
        imageCopiesOf_assetEvents env.rootFiles assetsToCopy assetsToCopy_not_images,
        imageCopiesOf_imagesEvents]
      simp [imageCopiesOf, List.filterMap_cons]

theorem outFilesOf_successTrace (env : BuildEnv) (sorted : List Record) :
    outFilesOf (successTrace env sorted)
      = sorted.map (pageFor env.recipeT env.layoutT (recipesValue sorted))
          ++ [("index.html", env.layoutT (indexCtx env.indexT (recipesValue sorted)))]
          ++ copiedAssets env.rootFiles
          ++ copiedImages env.imagesSrc := by
  cases hsrc : env.imagesSrc with
  | none =>
      unfold successTrace
      rw [hsrc]
      simp only [outFilesOf_append, outFilesOf_recipeEvents, outFilesOf_assetEvents]
      simp [outFilesOf, List.filterMap_cons, imagesEvents, copiedAssets, copiedImages]
  | some files =>
      unfold successTrace
      rw [hsrc]
      simp only [outFilesOf_append, outFilesOf_recipeEvents, outFilesOf_assetEvents,
        outFilesOf_imagesEvents]
      simp [outFilesOf, List.filterMap_cons, copiedAssets, copiedImages]

/-! ## Claims -/

/-- The Boolean predicate "the record's headline string equals `h`". -/
def headlineIs (h : String) (r : Record) : Bool := headlineStr r == h

theorem getKey_recipes_indexCtx (indexT : Ctx → String) (rv : Value) :
    getKey "recipes" (indexCtx indexT rv) = some rv := by
  unfold indexCtx getKey
  rw [if_neg (by decide)]
  unfold getKey
  rw [if_neg (by decide)]
  unfold getKey
  rw [if_pos rfl]

/-- C1: on a successful build (all records parse and carry string headlines;
the locale comparison is a total preorder), the record collection used for
rendering is the stable ascending sort of the loaded records by headline —
a permutation of the loaded records, pairwise ascending under the headline
comparison, with records of equal headline kept in original enumeration
order — and exactly this sorted collection appears as the `recipes`
navigation value of every shell-template context, the listing page's
included. -/
theorem claim_C1_sorted_navigation (env : BuildEnv) (records sorted : List Record)
    (hload : loadRecords env.dataFiles = Except.ok records)
    (hstr : ∀ r ∈ records, isStrHeadline r = true)
    (htot : ∀ a b : String, env.cmp a b = Ordering.gt → env.cmp b a ≠ Ordering.gt)
    (htrans : ∀ a b c : String, env.cmp a b ≠ Ordering.gt → env.cmp b c ≠ Ordering.gt →
      env.cmp a c ≠ Ordering.gt)
    (hrefl : ∀ s : String, env.cmp s s ≠ Ordering.gt)
    (hsort : sortE (headlineLocaleCompare env.cmp) records = Except.ok sorted) :
    sorted.Perm records
      ∧ sorted.Pairwise (recLe env.cmp)
      ∧ (∀ h : String, sorted.filter (headlineIs h) = records.filter (headlineIs h))
      ∧ layoutCtxsOf (generateSite env).trace
          = sorted.map (recipeCtx env.recipeT (recipesValue sorted))
              ++ [indexCtx env.indexT (recipesValue sorted)]
      ∧ (∀ ctx ∈ layoutCtxsOf (generateSite env).trace,
          getKey "recipes" ctx = some (recipesValue sorted)) := by
  have h1 := sortE_ok env.cmp records hstr
  rw [hsort] at h1
  injection h1 with hseq
  haveI : IsTotal Record (recLe env.cmp) := ⟨fun a b => by
    by_cases h : env.cmp (headlineStr a) (headlineStr b) = Ordering.gt
    · exact Or.inr (htot _ _ h)
    · exact Or.inl h⟩
  haveI : IsTrans Record (recLe env.cmp) := ⟨fun a b c hab hbc => htrans _ _ _ hab hbc⟩
  have hctxs : layoutCtxsOf (generateSite env).trace
      = sorted.map (recipeCtx env.recipeT (recipesValue sorted))
          ++ [indexCtx env.indexT (recipesValue sorted)] := by
    rw [generateSite_ok env records sorted hload hsort]
    exact layoutCtxsOf_successTrace env sorted
  refine ⟨?_, ?_, ?_, hctxs, ?_⟩
  · rw [hseq]; exact List.perm_insertionSort _ _
  · rw [hseq]; exact List.sorted_insertionSort _ _
  · intro h
    rw [hseq]
    apply insertionSort_filter_eq
    intro a _ b _ pa pb
    have ea := eq_of_beq pa
    have eb := eq_of_beq pb
    unfold recLe
    rw [ea, eb]
    exact hrefl h
  · intro ctx hc
    rw [hctxs] at hc
    rcases List.mem_append.mp hc with hm | hm
    · obtain ⟨r, _, rfl⟩ := List.mem_map.mp hm
      exact getKey_jsSet_self _ _ _
    · rw [List.mem_singleton.mp hm]
      exact getKey_recipes_indexCtx _ _

/-- A template rendering the empty string, for concrete instantiations. -/
def blankT : Ctx → String := fun _ => ""

/-- A locale comparison under which all strings tie (a legitimate total
preorder), for concrete instantiations. -/
def cmpEqAll : String → String → Ordering := fun _ _ => Ordering.eq

/-- Sample records. -/
def recAlpha : Record := [("slug", Value.vstr "alpha"), ("headline", Value.vstr "Alpha")]

def recBeta : Record := [("slug", Value.vstr "beta"), ("headline", Value.vstr "Beta")]

/-- A concrete environment: two records enumerated as `beta` then `alpha`. -/
def envW1 : BuildEnv :=
  { dataFiles := [⟨"beta.jsonld", some recBeta⟩, ⟨"alpha.jsonld", some recAlpha⟩],
    layoutT := blankT, recipeT := blankT, indexT := blankT,
    cmp := cmpEqAll, rootFiles := [], imagesSrc := none }

/-- Witness for C1 at `envW1` (under `cmpEqAll` the two records tie, so the
stable sort keeps enumeration order `[recBeta, recAlpha]`). -/
theorem claim_C1_sorted_navigation_witness :
    (loadRecords envW1.dataFiles = Except.ok [recBeta, recAlpha])
      ∧ [recBeta, recAlpha].Perm [recBeta, recAlpha]
      ∧ [recBeta, recAlpha].Pairwise (recLe envW1.cmp)
      ∧ (∀ h : String,
          [recBeta, recAlpha].filter (headlineIs h)
            = [recBeta, recAlpha].filter (headlineIs h))
      ∧ layoutCtxsOf (generateSite envW1).trace
          = [recBeta, recAlpha].map
              (recipeCtx envW1.recipeT (recipesValue [recBeta, recAlpha]))
              ++ [indexCtx envW1.indexT (recipesValue [recBeta, recAlpha])]
      ∧ (∀ ctx ∈ layoutCtxsOf (generateSite envW1).trace,
          getKey "recipes" ctx = some (recipesValue [recBeta, recAlpha])) := by
  have h := claim_C1_sorted_navigation envW1 [recBeta, recAlpha] [recBeta, recAlpha]
    rfl (by decide)
    (fun a b h => Ordering.noConfusion h)
    (fun a b c _ _ h => Ordering.noConfusion h)
    (fun s h => Ordering.noConfusion h)
    rfl
  exact ⟨rfl, h.1, h.2.1, h.2.2.1, h.2.2.2.1, h.2.2.2.2⟩

/-- C2: on a successful build the shell template is invoked once per record
with the merged context `{...record, body, recipes}` and once for the listing
page; in a record's merged context every key other than `body` and `recipes`
(so in particular a record-level `pageTitle` or `featuredImage`) resolves to
the record's own value, while `body` and `recipes` resolve to the rendered
item body and the sorted collection even if the record carries same-named
fields; the listing page's context resolves `pageTitle` to the fixed
constant, independent of any record data. -/
theorem claim_C2_merged_context (env : BuildEnv) (records sorted : List Record)
    (hload : loadRecords env.dataFiles = Except.ok records)
    (hsort : sortE (headlineLocaleCompare env.cmp) records = Except.ok sorted) :
    layoutCtxsOf (generateSite env).trace
        = sorted.map (recipeCtx env.recipeT (recipesValue sorted))
            ++ [indexCtx env.indexT (recipesValue sorted)]
      ∧ (∀ r : Record, ∀ k : String, k ≠ "body" → k ≠ "recipes" →
          getKey k (recipeCtx env.recipeT (recipesValue sorted) r) = getKey k r)
      ∧ (∀ r : Record,
          getKey "body" (recipeCtx env.recipeT (recipesValue sorted) r)
            = some (Value.vstr (env.recipeT r)))
      ∧ (∀ r : Record,
          getKey "recipes" (recipeCtx env.recipeT (recipesValue sorted) r)
            = some (recipesValue sorted))
      ∧ getKey "pageTitle" (indexCtx env.indexT (recipesValue sorted))
          = some (Value.vstr indexPageTitle) := by
  refine ⟨?_, ?_, ?_, ?_, ?_⟩
  · rw [generateSite_ok env records sorted hload hsort]
    exact layoutCtxsOf_successTrace env sorted
  · intro r k hb hr
    unfold recipeCtx
    rw [getKey_jsSet_other _ _ _ _ hr, getKey_jsSet_other _ _ _ _ hb]
  · intro r
    unfold recipeCtx
    rw [getKey_jsSet_other _ _ _ _ (by decide), getKey_jsSet_self]
  · intro r
    exact getKey_jsSet_self _ _ _
  · rfl

/-- Witness for C2 at `envW1`. -/
theorem claim_C2_merged_context_witness :
    layoutCtxsOf (generateSite envW1).trace
        = [recBeta, recAlpha].map
            (recipeCtx envW1.recipeT (recipesValue [recBeta, recAlpha]))
            ++ [indexCtx envW1.indexT (recipesValue [recBeta, recAlpha])]
      ∧ (∀ r : Record, ∀ k : String, k ≠ "body" → k ≠ "recipes" →
          getKey k (recipeCtx envW1.recipeT (recipesValue [recBeta, recAlpha]) r)
            = getKey k r)
      ∧ (∀ r : Record,
          getKey "body" (recipeCtx envW1.recipeT (recipesValue [recBeta, recAlpha]) r)
            = some (Value.vstr (envW1.recipeT r)))
      ∧ (∀ r : Record,
          getKey "recipes" (recipeCtx envW1.recipeT (recipesValue [recBeta, recAlpha]) r)
            = some (recipesValue [recBeta, recAlpha]))
      ∧ getKey "pageTitle" (indexCtx envW1.indexT (recipesValue [recBeta, recAlpha]))
          = some (Value.vstr indexPageTitle) :=
  claim_C2_merged_context envW1 [recBeta, recAlpha] [recBeta, recAlpha] rfl rfl

/-- C3: when every file with the recognized `.jsonld` extension parses (and
records carry string headlines so the build completes), the number of records
loaded equals the number of `.jsonld` directory entries — whatever other
files are present — and the build writes exactly that many per-record pages
plus the one listing page. -/
theorem claim_C3_record_count (env : BuildEnv)
    (hparse : ∀ f ∈ env.dataFiles,
      endsWithStr f.name ".jsonld" = true → f.content.isSome = true)
    (hstr : ∀ r ∈ env.dataFiles.filterMap pickRecord, isStrHeadline r = true) :
    ∃ records, loadRecords env.dataFiles = Except.ok records
      ∧ records.length
          = (env.dataFiles.filter (fun f => endsWithStr f.name ".jsonld")).length
      ∧ (pagesOf (generateSite env).trace).length
          = (env.dataFiles.filter (fun f => endsWithStr f.name ".jsonld")).length + 1 := by
  refine ⟨env.dataFiles.filterMap pickRecord, loadRecords_eq_ok _ hparse,
    length_filterMap_pickRecord _ hparse, ?_⟩
  have hsort := sortE_ok env.cmp _ hstr
  rw [generateSite_ok env _ _ (loadRecords_eq_ok _ hparse) hsort, pagesOf_successTrace]
  simp [length_filterMap_pickRecord _ hparse]

/-- A concrete environment with one `.jsonld` record and two other files. -/
def envW3 : BuildEnv :=
  { dataFiles := [⟨"alpha.jsonld", some recAlpha⟩, ⟨"notes.txt", none⟩,
                  ⟨"readme.md", none⟩],
    layoutT := blankT, recipeT := blankT, indexT := blankT,
    cmp := cmpEqAll, rootFiles := [], imagesSrc := none }

/-- Witness for C3 at `envW3`: one `.jsonld` entry among three files. -/
theorem claim_C3_record_count_witness :
    (envW3.dataFiles.filter (fun f => endsWithStr f.name ".jsonld")).length = 1
      ∧ ∃ records, loadRecords envW3.dataFiles = Except.ok records
          ∧ records.length
              = (envW3.dataFiles.filter (fun f => endsWithStr f.name ".jsonld")).length
          ∧ (pagesOf (generateSite envW3).trace).length
              = (envW3.dataFiles.filter (fun f => endsWithStr f.name ".jsonld")).length
                  + 1 :=
  ⟨by decide, claim_C3_record_count envW3 (by decide) (by decide)⟩

/-- C4: a malformed `.jsonld` file aborts the build: the observable behavior
is exactly clear-the-output-directory followed by the error log, the process
exits with status 1, and no per-record or listing page is written (the
cleared output-directory state is simply left in place — the model has no
cleanup action). -/
theorem claim_C4_parse_abort (env : BuildEnv)
    (hbad : ∃ f ∈ env.dataFiles, endsWithStr f.name ".jsonld" = true ∧ f.content = none) :
    generateSite env = { trace := [Ev.clearDir, Ev.errorLine], exitCode := 1 }
      ∧ pagesOf (generateSite env).trace = []
      ∧ Ev.errorLine ∈ (generateSite env).trace
      ∧ (generateSite env).exitCode = 1 := by
  have h := generateSite_loadError env JsError.parseError (loadRecords_error _ hbad)
  refine ⟨h, ?_, ?_, ?_⟩ <;> rw [h] <;> simp [pagesOf]

/-- A concrete environment whose second data file is malformed. -/
def envW4 : BuildEnv :=
  { dataFiles := [⟨"alpha.jsonld", some recAlpha⟩, ⟨"bad.jsonld", none⟩],
    layoutT := blankT, recipeT := blankT, indexT := blankT,
    cmp := cmpEqAll, rootFiles := [("bps.css", "css")], imagesSrc := none }

/-- Witness for C4 at `envW4`. -/
theorem claim_C4_parse_abort_witness :
    (endsWithStr "bad.jsonld" ".jsonld" = true)
      ∧ generateSite envW4 = { trace := [Ev.clearDir, Ev.errorLine], exitCode := 1 }
      ∧ pagesOf (generateSite envW4).trace = [] := by
  have h := claim_C4_parse_abort envW4
    ⟨⟨"bad.jsonld", none⟩, List.mem_cons_of_mem _ (List.mem_cons_self _ _),
      by decide, rfl⟩
  exact ⟨by decide, h.1, h.2.1⟩

theorem mem_catMap {α β : Type} (f : α → List β) {a : α} {l : List α} {b : β}
    (ha : a ∈ l) (hb : b ∈ f a) : b ∈ catMap f l := by
  induction l with
  | nil => cases ha
  | cons x xs ih =>
      rcases List.mem_cons.mp ha with h | h
      · subst h
        exact List.mem_append.mpr (Or.inl hb)
      · exact List.mem_append.mpr (Or.inr (ih h))

theorem mem_successTrace_of_assets (env : BuildEnv) (sorted : List Record) {e : Ev}
    (he : e ∈ catMap (assetEvents env.rootFiles) assetsToCopy) :
    e ∈ successTrace env sorted := by
  unfold successTrace
  simp only [List.mem_append, List.mem_cons]
  tauto

theorem mem_successTrace_of_images (env : BuildEnv) (sorted : List Record) {e : Ev}
    (he : e ∈ imagesEvents env.imagesSrc) :
    e ∈ successTrace env sorted := by
  unfold successTrace
  simp only [List.mem_append, List.mem_cons]
  tauto

/-- C5: on a successful build, every manifest asset present at the source
root is copied to the output root with a success log line, every absent one
produces a warning while the build still completes with exit status 0, and
each present asset's copy is independent of the others' absence. -/
theorem claim_C5_asset_manifest (env : BuildEnv) (records sorted : List Record)
    (hload : loadRecords env.dataFiles = Except.ok records)
    (hsort : sortE (headlineLocaleCompare env.cmp) records = Except.ok sorted) :
    (generateSite env).exitCode = 0
      ∧ ∀ a ∈ assetsToCopy,
          (∀ c, getKey a env.rootFiles = some c →
              Ev.copyFile a c ∈ (generateSite env).trace
                ∧ Ev.logLine ("Copied: " ++ a) ∈ (generateSite env).trace
                ∧ (a, c) ∈ outFilesOf (generateSite env).trace)
            ∧ (getKey a env.rootFiles = none →
                Ev.warnLine ("Asset not found, skipped: " ++ a)
                  ∈ (generateSite env).trace) := by
  have hgen := generateSite_ok env records sorted hload hsort
  rw [hgen]
  refine ⟨rfl, ?_⟩
  intro a ha
  constructor
  · intro c hc
    have hcopy : Ev.copyFile a c ∈ assetEvents env.rootFiles a := by
      simp [assetEvents, hc]
    have hlog : Ev.logLine ("Copied: " ++ a) ∈ assetEvents env.rootFiles a := by
      simp [assetEvents, hc]
    refine ⟨mem_successTrace_of_assets env sorted (mem_catMap _ ha hcopy),
      mem_successTrace_of_assets env sorted (mem_catMap _ ha hlog), ?_⟩
    rw [outFilesOf_successTrace]
    refine List.mem_append.mpr (Or.inl (List.mem_append.mpr (Or.inr ?_)))
    exact List.mem_filterMap.mpr ⟨a, ha, by rw [hc]; rfl⟩
  · intro hc
    have hwarn : Ev.warnLine ("Asset not found, skipped: " ++ a)
        ∈ assetEvents env.rootFiles a := by
      simp [assetEvents, hc]
    exact mem_successTrace_of_assets env sorted (mem_catMap _ ha hwarn)

/-- A concrete environment with one present manifest asset and all others
absent. -/
def envW5 : BuildEnv :=
  { dataFiles := [⟨"alpha.jsonld", some recAlpha⟩],
    layoutT := blankT, recipeT := blankT, indexT := blankT,
    cmp := cmpEqAll, rootFiles := [("bps.css", "styles")], imagesSrc := none }

/-- Witness for C5 at `envW5`: `bps.css` is present and copied, `CNAME` is
absent and warned about, and the build exits 0. -/
theorem claim_C5_asset_manifest_witness :
    ("bps.css" ∈ assetsToCopy ∧ "CNAME" ∈ assetsToCopy)
      ∧ (generateSite envW5).exitCode = 0
      ∧ Ev.copyFile "bps.css" "styles" ∈ (generateSite envW5).trace
      ∧ ("bps.css", "styles") ∈ outFilesOf (generateSite envW5).trace
      ∧ Ev.warnLine ("Asset not found, skipped: " ++ "CNAME")
          ∈ (generateSite envW5).trace := by
  have h := claim_C5_asset_manifest envW5 [recAlpha] [recAlpha] rfl rfl
  have hb : "bps.css" ∈ assetsToCopy := by decide
  have hn : "CNAME" ∈ assetsToCopy := by decide
  have h1 := (h.2 "bps.css" hb).1 "styles" rfl
  have h2 := (h.2 "CNAME" hn).2 rfl
  exact ⟨⟨hb, hn⟩, h.1, h1.1, h1.2.2, h2⟩

theorem filterMap_pickRecord_nil (files : List DataFile)
    (h : ∀ f ∈ files, endsWithStr f.name ".jsonld" = false) :
    files.filterMap pickRecord = [] := by
  induction files with
  | nil => rfl
  | cons f fs ih =>
      have hf := h f (List.mem_cons_self f fs)
      simp [List.filterMap_cons, pickRecord, hf,
        ih (fun g hg => h g (List.mem_cons_of_mem f hg))]

/-- C6 (amended): with no `.jsonld` files in the data directory the build
succeeds with exit status 0 and the renderer writes exactly one page,
`index.html`, with no per-record pages; the output directory consists of
exactly that one file when, additionally, no manifest asset is present at the
source root and the images source directory is absent (present assets and
images are still copied regardless of the data directory). -/
theorem claim_C6_empty_collection (env : BuildEnv)
    (hnone : ∀ f ∈ env.dataFiles, endsWithStr f.name ".jsonld" = false) :
    (generateSite env).exitCode = 0
      ∧ pagesOf (generateSite env).trace
          = [("index.html", env.layoutT (indexCtx env.indexT (recipesValue [])))]
      ∧ (copiedAssets env.rootFiles = [] → env.imagesSrc = none →
          outFilesOf (generateSite env).trace
            = [("index.html", env.layoutT (indexCtx env.indexT (recipesValue [])))]) := by
  have hparse : ∀ f ∈ env.dataFiles,
      endsWithStr f.name ".jsonld" = true → f.content.isSome = true :=
    fun f hf he => absurd he (by simp [hnone f hf])
  have hload := loadRecords_eq_ok _ hparse
  rw [filterMap_pickRecord_nil _ hnone] at hload
  have hgen := generateSite_ok env [] [] hload rfl
  rw [hgen]
  refine ⟨rfl, ?_, ?_⟩
  · rw [pagesOf_successTrace]
    rfl
  · intro hca hsrc
    rw [outFilesOf_successTrace, hca, hsrc]
    rfl

/-- A concrete environment: no data files, one present manifest asset. -/
def envC6 : BuildEnv :=
  { dataFiles := [], layoutT := blankT, recipeT := blankT, indexT := blankT,
    cmp := cmpEqAll, rootFiles := [("bps.css", "css-bytes")], imagesSrc := none }

/-- Counterexample to C6 as stated: with an empty data directory but a
manifest asset present at the source root, the build succeeds yet the output
directory contains two files (`index.html` and the copied `bps.css`), not
exactly one. -/
theorem claim_C6_counterexample :
    envC6.dataFiles = []
      ∧ (generateSite envC6).exitCode = 0
      ∧ (outFilesOf (generateSite envC6).trace).map Prod.fst = ["index.html", "bps.css"]
      ∧ (outFilesOf (generateSite envC6).trace).length ≠ 1 :=
  ⟨rfl, rfl, rfl, by decide⟩

/-- A concrete environment: a data directory with only a non-`.jsonld` file,
no assets, no images directory. -/
def envW6 : BuildEnv :=
  { dataFiles := [⟨"notes.txt", none⟩], layoutT := blankT, recipeT := blankT,
    indexT := blankT, cmp := cmpEqAll, rootFiles := [], imagesSrc := none }

/-- Witness for the amended C6 at `envW6`. -/
theorem claim_C6_empty_collection_witness :
    (generateSite envW6).exitCode = 0
      ∧ pagesOf (generateSite envW6).trace
          = [("index.html", envW6.layoutT (indexCtx envW6.indexT (recipesValue [])))]
      ∧ outFilesOf (generateSite envW6).trace
          = [("index.html", envW6.layoutT (indexCtx envW6.indexT (recipesValue [])))] := by
  have h := claim_C6_empty_collection envW6 (by decide)
  exact ⟨h.1, h.2.1, h.2.2 rfl rfl⟩

/-- `true` exactly on `fs.copy` events. -/
def isCopyFile : Ev → Bool
  | Ev.copyFile _ _ => true
  | _ => false

theorem isCopyFile_recipeEvents (rT lT : Ctx → String) (rv : Value) (l : List Record) :
    ∀ e ∈ catMap (recipePageEvents rT lT rv) l, isCopyFile e = false := by
  induction l with
  | nil => intro e he; cases he
  | cons r rs ih =>
      intro e he
      rcases List.mem_append.mp he with h | h
      · simp only [recipePageEvents, List.mem_cons, List.not_mem_nil, or_false] at h
        rcases h with h | h | h <;> subst h <;> rfl
      · exact ih e h

/-- C7: on a successful build, when the images source directory exists the
`images/` output subdirectory is created before any copy happens and every
entry of the source directory is copied into it (exactly those entries land
under `images/`); when it does not exist, the warning is logged and the
build still exits 0. -/
theorem claim_C7_images_copy (env : BuildEnv) (records sorted : List Record)
    (hload : loadRecords env.dataFiles = Except.ok records)
    (hsort : sortE (headlineLocaleCompare env.cmp) records = Except.ok sorted) :
    (∀ files, env.imagesSrc = some files →
        (∃ pre post, (generateSite env).trace = pre ++ Ev.mkdir "images" :: post
            ∧ (∀ e ∈ pre, isCopyFile e = false)
            ∧ ∀ f ∈ files, Ev.copyFile ("images/" ++ f.1) f.2 ∈ post)
          ∧ imageCopiesOf (generateSite env).trace
              = files.map (fun f => ("images/" ++ f.1, f.2)))
      ∧ (env.imagesSrc = none →
          Ev.warnLine "Root images directory not found, skipped copying images from there."
              ∈ (generateSite env).trace
            ∧ (generateSite env).exitCode = 0) := by
  have hgen := generateSite_ok env records sorted hload hsort
  rw [hgen]
  constructor
  · intro files hf
    constructor
    · refine ⟨[Ev.clearDir]
          ++ catMap (recipePageEvents env.recipeT env.layoutT (recipesValue sorted)) sorted
          ++ [Ev.callLayout (indexCtx env.indexT (recipesValue sorted)),
              Ev.writeFile "index.html"
                (env.layoutT (indexCtx env.indexT (recipesValue sorted))),
              Ev.logLine "Generated: index.html"],
        catMap (assetEvents env.rootFiles) assetsToCopy ++ imagesEvents env.imagesSrc
          ++ [Ev.logLine "Static site generation complete!"], ?_, ?_, ?_⟩
      · simp [successTrace]
      · intro e he
        rcases List.mem_append.mp he with h | h
        · rcases List.mem_append.mp h with h | h
          · rw [List.mem_singleton.mp h]
            rfl
          · exact isCopyFile_recipeEvents _ _ _ _ e h
        · simp only [List.mem_cons, List.not_mem_nil, or_false] at h
          rcases h with h | h | h <;> subst h <;> rfl
      · intro f hf2
        refine List.mem_append.mpr (Or.inl (List.mem_append.mpr (Or.inr ?_)))
        rw [hf]
        exact mem_catMap _ hf2 (by simp)
    · rw [imageCopiesOf_successTrace, hf]
  · intro hnone
    refine ⟨?_, rfl⟩
    apply mem_successTrace_of_images
    rw [hnone]
    simp [imagesEvents]

/-- A concrete environment whose images source directory holds one file. -/
def envW7 : BuildEnv :=
  { dataFiles := [⟨"alpha.jsonld", some recAlpha⟩],
    layoutT := blankT, recipeT := blankT, indexT := blankT,
    cmp := cmpEqAll, rootFiles := [], imagesSrc := some [("pic.jpg", "jpg-bytes")] }

/-- Witness for C7 at `envW7`. -/
theorem claim_C7_images_copy_witness :
    (∃ pre post, (generateSite envW7).trace = pre ++ Ev.mkdir "images" :: post
        ∧ (∀ e ∈ pre, isCopyFile e = false)
        ∧ ∀ f ∈ [("pic.jpg", "jpg-bytes")], Ev.copyFile ("images/" ++ f.1) f.2 ∈ post)
      ∧ imageCopiesOf (generateSite envW7).trace
          = [("pic.jpg", "jpg-bytes")].map (fun f => ("images/" ++ f.1, f.2)) :=
  (claim_C7_images_copy envW7 [recAlpha] [recAlpha] rfl rfl).1 _ rfl

/-- C10: every build that reaches the asset-copy step creates the `images/`
output subdirectory, even when the images source directory does not exist —
in that case the warning is logged and nothing is copied under `images/`, so
the created subdirectory stays empty. -/
theorem claim_C10_ensure_images_dir (env : BuildEnv) (records sorted : List Record)
    (hload : loadRecords env.dataFiles = Except.ok records)
    (hsort : sortE (headlineLocaleCompare env.cmp) records = Except.ok sorted) :
    Ev.mkdir "images" ∈ (generateSite env).trace
      ∧ (env.imagesSrc = none →
          imageCopiesOf (generateSite env).trace = []
            ∧ Ev.warnLine "Root images directory not found, skipped copying images from there."
                ∈ (generateSite env).trace) := by
  have hgen := generateSite_ok env records sorted hload hsort
  rw [hgen]
  constructor
  · unfold successTrace
    simp
  · intro hnone
    refine ⟨?_, ?_⟩
    · rw [imageCopiesOf_successTrace, hnone]
    · apply mem_successTrace_of_images
      rw [hnone]
      simp [imagesEvents]

/-- Witness for C10 at `envW5`, whose images source directory is absent. -/
theorem claim_C10_ensure_images_dir_witness :
    envW5.imagesSrc = none
      ∧ Ev.mkdir "images" ∈ (generateSite envW5).trace
      ∧ imageCopiesOf (generateSite envW5).trace = [] := by
  have h := claim_C10_ensure_images_dir envW5 [recAlpha] [recAlpha] rfl rfl
  exact ⟨rfl, h.1, (h.2 rfl).1⟩

/-- A shell template whose output is the concatenation of the navigation
records' slugs, for concrete instantiations that observe navigation order. -/
def navSlugs : Ctx → String := fun ctx =>
  match getKey "recipes" ctx with
  | some (Value.varr vs) =>
      String.join (vs.map (fun v =>
        match v with
        | Value.vobj o => jsArgString (getKey "slug" o)
        | _ => ""))
  | _ => ""

/-- Two records sharing the headline `"Same"`. -/
def recSameA : Record := [("slug", Value.vstr "one"), ("headline", Value.vstr "Same")]

def recSameB : Record := [("slug", Value.vstr "two"), ("headline", Value.vstr "Same")]

/-- Equal-headline records, enumerated `one` before `two`. -/
def envC8a : BuildEnv :=
  { dataFiles := [⟨"one.jsonld", some recSameA⟩, ⟨"two.jsonld", some recSameB⟩],
    layoutT := navSlugs, recipeT := blankT, indexT := blankT,
    cmp := cmpEqAll, rootFiles := [], imagesSrc := none }

/-- The same data files, enumerated `two` before `one`. -/
def envC8b : BuildEnv :=
  { dataFiles := [⟨"two.jsonld", some recSameB⟩, ⟨"one.jsonld", some recSameA⟩],
    layoutT := navSlugs, recipeT := blankT, indexT := blankT,
    cmp := cmpEqAll, rootFiles := [], imagesSrc := none }

/-- Counterexample to C8 as stated: with two records sharing a headline, the
stable sort preserves enumeration order, so two builds over the same data
set that enumerate the data directory in different orders both succeed yet
write different bytes for `index.html` (navigation order `one,two` versus
`two,one`). -/
theorem claim_C8_counterexample :
    envC8a.dataFiles.Perm envC8b.dataFiles
      ∧ envC8a.layoutT = envC8b.layoutT
      ∧ envC8a.recipeT = envC8b.recipeT
      ∧ envC8a.indexT = envC8b.indexT
      ∧ envC8a.cmp = envC8b.cmp
      ∧ envC8a.rootFiles = envC8b.rootFiles
      ∧ envC8a.imagesSrc = envC8b.imagesSrc
      ∧ (generateSite envC8a).exitCode = 0
      ∧ (generateSite envC8b).exitCode = 0
      ∧ getKey "index.html" (outFilesOf (generateSite envC8a).trace)
          ≠ getKey "index.html" (outFilesOf (generateSite envC8b).trace) := by
  refine ⟨List.Perm.swap _ _ _, rfl, rfl, rfl, rfl, rfl, rfl, rfl, rfl, ?_⟩
  decide

/-- C8 (amended): a build is a deterministic function of its inputs, and its
output is moreover independent of the order in which the filesystem
enumerates the data directory provided no two distinct records tie under the
headline comparison; with equal headlines the enumeration order fixes the
tie order and leaks into every page's navigation (see the counterexample). -/
theorem claim_C8_enumeration_independence (env1 env2 : BuildEnv)
    (hperm : env2.dataFiles.Perm env1.dataFiles)
    (hT : env2.layoutT = env1.layoutT) (hR : env2.recipeT = env1.recipeT)
    (hI : env2.indexT = env1.indexT) (hC : env2.cmp = env1.cmp)
    (hF : env2.rootFiles = env1.rootFiles) (hS : env2.imagesSrc = env1.imagesSrc)
    (hparse : ∀ f ∈ env1.dataFiles,
      endsWithStr f.name ".jsonld" = true → f.content.isSome = true)
    (hstr : ∀ r ∈ env1.dataFiles.filterMap pickRecord, isStrHeadline r = true)
    (htot : ∀ a b : String, env1.cmp a b = Ordering.gt → env1.cmp b a ≠ Ordering.gt)
    (htrans : ∀ a b c : String, env1.cmp a b ≠ Ordering.gt →
      env1.cmp b c ≠ Ordering.gt → env1.cmp a c ≠ Ordering.gt)
    (hanti : ∀ a ∈ env1.dataFiles.filterMap pickRecord,
        ∀ b ∈ env1.dataFiles.filterMap pickRecord,
        recLe env1.cmp a b → recLe env1.cmp b a → a = b) :
    generateSite env1 = generateSite env2 := by
  have hparse2 : ∀ f ∈ env2.dataFiles,
      endsWithStr f.name ".jsonld" = true → f.content.isSome = true :=
    fun f hf => hparse f (hperm.mem_iff.mp hf)
  have hload1 := loadRecords_eq_ok env1.dataFiles hparse
  have hload2 := loadRecords_eq_ok env2.dataFiles hparse2
  have hpr : (env2.dataFiles.filterMap pickRecord).Perm
      (env1.dataFiles.filterMap pickRecord) := hperm.filterMap pickRecord
  have hstr2 : ∀ r ∈ env2.dataFiles.filterMap pickRecord, isStrHeadline r = true :=
    fun r hr => hstr r (hpr.mem_iff.mp hr)
  have hsort1 := sortE_ok env1.cmp _ hstr
  have hsort2 := sortE_ok env2.cmp _ hstr2
  haveI : IsTotal Record (recLe env1.cmp) := ⟨fun a b => by
    by_cases h : env1.cmp (headlineStr a) (headlineStr b) = Ordering.gt
    · exact Or.inr (htot _ _ h)
    · exact Or.inl h⟩
  haveI : IsTrans Record (recLe env1.cmp) := ⟨fun a b c hab hbc => htrans _ _ _ hab hbc⟩
  have hSeq : List.insertionSort (recLe env1.cmp) (env1.dataFiles.filterMap pickRecord)
      = List.insertionSort (recLe env1.cmp) (env2.dataFiles.filterMap pickRecord) := by
    apply eq_of_perm_of_sorted_local
    · exact ((List.perm_insertionSort _ _).trans hpr.symm).trans
        (List.perm_insertionSort _ _).symm
    · exact List.sorted_insertionSort _ _
    · exact List.sorted_insertionSort _ _
    · intro a ha b hb
      exact hanti a ((List.mem_insertionSort _).mp ha) b ((List.mem_insertionSort _).mp hb)
  rw [generateSite_ok env1 _ _ hload1 hsort1, generateSite_ok env2 _ _ hload2 hsort2,
    hC, ← hSeq]
  simp [successTrace, hT, hR, hI, hF, hS]

/-- A locale comparison by string length (a total preorder whose ties are
exactly equal-length strings), for concrete instantiations. -/
def cmpLen : String → String → Ordering := fun a b => compare a.length b.length

theorem cmpLen_total : ∀ a b : String,
    cmpLen a b = Ordering.gt → cmpLen b a ≠ Ordering.gt := by
  intro a b h hb
  simp only [cmpLen, Nat.compare_eq_gt] at h hb
  exact absurd hb (Nat.lt_asymm h)

theorem cmpLen_trans : ∀ a b c : String, cmpLen a b ≠ Ordering.gt →
    cmpLen b c ≠ Ordering.gt → cmpLen a c ≠ Ordering.gt := by
  intro a b c hab hbc
  simp only [cmpLen, Ne, Nat.compare_eq_gt, Nat.not_lt] at hab hbc ⊢
  exact Nat.le_trans hab hbc

/-- Records with headlines of distinct lengths. -/
def recShort : Record := [("slug", Value.vstr "s"), ("headline", Value.vstr "A")]

def recLong : Record := [("slug", Value.vstr "l"), ("headline", Value.vstr "BBB")]

/-- Distinct-headline records, enumerated `l` before `s`. -/
def envW8a : BuildEnv :=
  { dataFiles := [⟨"l.jsonld", some recLong⟩, ⟨"s.jsonld", some recShort⟩],
    layoutT := navSlugs, recipeT := blankT, indexT := blankT,
    cmp := cmpLen, rootFiles := [], imagesSrc := none }

/-- The same data files, enumerated `s` before `l`. -/
def envW8b : BuildEnv :=
  { dataFiles := [⟨"s.jsonld", some recShort⟩, ⟨"l.jsonld", some recLong⟩],
    layoutT := navSlugs, recipeT := blankT, indexT := blankT,
    cmp := cmpLen, rootFiles := [], imagesSrc := none }

/-- Witness for the amended C8: with pairwise distinct headlines the two
enumeration orders produce identical builds. -/
theorem claim_C8_enumeration_independence_witness :
    envW8b.dataFiles.Perm envW8a.dataFiles
      ∧ generateSite envW8a = generateSite envW8b := by
  refine ⟨List.Perm.swap _ _ _, ?_⟩
  apply claim_C8_enumeration_independence envW8a envW8b (List.Perm.swap _ _ _)
    rfl rfl rfl rfl rfl rfl (by decide) (by decide) cmpLen_total cmpLen_trans
  intro a ha b hb hab hba
  have ha' : a ∈ [recLong, recShort] := ha
  have hb' : b ∈ [recLong, recShort] := hb
  rcases List.mem_cons.mp ha' with ea | ha2
  · rcases List.mem_cons.mp hb' with eb | hb2
    · rw [ea, eb]
    · have eb := List.mem_singleton.mp hb2
      subst ea
      subst eb
      exact absurd hab (by decide)
  · have ea := List.mem_singleton.mp ha2
    rcases List.mem_cons.mp hb' with eb | hb2
    · subst ea
      subst eb
      exact absurd hba (by decide)
    · have eb := List.mem_singleton.mp hb2
      rw [ea, eb]

/-- A record without a `headline` field. -/
def recNoHeadline : Record := [("slug", Value.vstr "x")]

/-- A single data file whose record lacks a headline. -/
def envC9 : BuildEnv :=
  { dataFiles := [⟨"x.jsonld", some recNoHeadline⟩],
    layoutT := blankT, recipeT := blankT, indexT := blankT,
    cmp := cmpEqAll, rootFiles := [], imagesSrc := none }

/-- Counterexample to C9 as stated: a single loaded record lacking a string
`headline` does not make the sort throw — sorting a one-element array
performs no comparisons — so the build completes with exit status 0 and
writes both `x.html` and `index.html`. -/
theorem claim_C9_counterexample :
    isStrHeadline recNoHeadline = false
      ∧ loadRecords envC9.dataFiles = Except.ok [recNoHeadline]
      ∧ (generateSite envC9).exitCode = 0
      ∧ (pagesOf (generateSite envC9).trace).map Prod.fst = ["x.html", "index.html"] :=
  ⟨rfl, rfl, rfl, rfl⟩

/-- C9 (amended, engine-independent): the unguarded dereference in
`a.headline.localeCompare(b.headline)` makes every comparison that receives
a record without a string headline as its first argument throw a TypeError;
if the sort step throws, the error is caught at top level and the build
terminates with exit status 1 before any page is written.  Which comparisons
the sort performs on a given array is implementation-defined (ECMA-262), so
which multi-record collections actually throw is engine-specific and not
asserted; what is engine-forced is that a lone record is never compared —
the sort succeeds whatever its headline and the build completes — and that
when every record has a string headline no comparison can fail, so the sort
step cannot fail. -/
theorem claim_C9_headline_sort_safety (env : BuildEnv) (records : List Record)
    (hload : loadRecords env.dataFiles = Except.ok records) :
    (∀ a b : Record, isStrHeadline a = false →
        headlineLocaleCompare env.cmp a b = Except.error JsError.typeError)
      ∧ (∀ e, sortE (headlineLocaleCompare env.cmp) records = Except.error e →
          generateSite env = { trace := [Ev.clearDir, Ev.errorLine], exitCode := 1 }
            ∧ pagesOf (generateSite env).trace = [])
      ∧ (∀ r, records = [r] →
          sortE (headlineLocaleCompare env.cmp) records = Except.ok [r]
            ∧ (generateSite env).exitCode = 0)
      ∧ ((∀ r ∈ records, isStrHeadline r = true) →
          ∃ sorted, sortE (headlineLocaleCompare env.cmp) records = Except.ok sorted
            ∧ (generateSite env).exitCode = 0) := by
  refine ⟨fun a b ha => headlineLocaleCompare_bad env.cmp a b ha, ?_, ?_, ?_⟩
  · intro e he
    have hgen := generateSite_sortError env records e hload he
    refine ⟨hgen, ?_⟩
    rw [hgen]
    rfl
  · intro r hr
    subst hr
    refine ⟨rfl, ?_⟩
    rw [generateSite_ok env [r] [r] hload rfl]
  · intro hstr
    refine ⟨_, sortE_ok env.cmp records hstr, ?_⟩
    rw [generateSite_ok env records _ hload (sortE_ok env.cmp records hstr)]

/-- Witness for the amended C9 at `envC9` — the lone headline-less record:
every comparison taking it as first argument would throw, yet the sort makes
none and the build succeeds — and at `envW1`, where every headline is a
string and the sort succeeds. -/
theorem claim_C9_headline_sort_safety_witness :
    (isStrHeadline recNoHeadline = false
        ∧ ∀ b : Record, headlineLocaleCompare envC9.cmp recNoHeadline b
            = Except.error JsError.typeError)
      ∧ sortE (headlineLocaleCompare envC9.cmp) [recNoHeadline]
          = Except.ok [recNoHeadline]
      ∧ (generateSite envC9).exitCode = 0
      ∧ ∃ sorted, sortE (headlineLocaleCompare envW1.cmp) [recBeta, recAlpha]
            = Except.ok sorted
          ∧ (generateSite envW1).exitCode = 0 := by
  have h9 := claim_C9_headline_sort_safety envC9 [recNoHeadline] rfl
  have h1 := claim_C9_headline_sort_safety envW1 [recBeta, recAlpha] rfl
  exact ⟨⟨rfl, fun b => h9.1 recNoHeadline b rfl⟩,
    (h9.2.2.1 recNoHeadline rfl).1, (h9.2.2.1 recNoHeadline rfl).2,
    h1.2.2.2 (by decide)⟩

end BreadPoets
